import Mathlib

/-!
Verification of the arXiv Atom-feed client (`src/arxiv_api/client.py`).

The XML document tree produced by `xml.etree.ElementTree` is modelled by the
inductive type `Element`: each element carries a tag, an attribute list, an
optional text node and a list of child elements.  Namespace-qualified tags
are written with their resolved prefix (the source resolves `atom:` and
`arxiv:` through a fixed namespace map once, so the resolved name is a fixed
string per lookup).  `ET.fromstring` — the external XML tokenizer — is
abstracted as a function `String → Option Element`; `none` models an XML
parse failure (`MalformedDocument`), `some root` a well-formed document.

Python truthiness on optional strings (`if raw_id and ...`,
`if name_el.text`, `if c.get("term")`) is translated explicitly: a value is
truthy when it is present and non-empty.
-/

set_option autoImplicit false

namespace ArxivApi

/-- An XML element as exposed by `xml.etree.ElementTree`: tag, attribute
list, optional text, and child elements (in document order). -/
inductive Element : Type where
  | mk : String → List (String × String) → Option String → List Element → Element

def Element.tag : Element → String
  | .mk t _ _ _ => t

def Element.attrib : Element → List (String × String)
  | .mk _ a _ _ => a

def Element.text : Element → Option String
  | .mk _ _ tx _ => tx

def Element.children : Element → List Element
  | .mk _ _ _ cs => cs

/-- `element.get(key)`: value of the attribute named `key`, if present. -/
def Element.get (e : Element) (key : String) : Option String :=
  (e.attrib.find? (fun p => p.1 == key)).map Prod.snd

/-- `element.findall(path, ns)` for a single-step path: all direct children
with the given (namespace-resolved) tag, in document order. -/
def Element.findall (e : Element) (t : String) : List Element :=
  e.children.filter (fun c => c.tag == t)

/-- `element.find(path, ns)` for a single-step path: the first direct child
with the given tag, if any. -/
def Element.find (e : Element) (t : String) : Option Element :=
  e.children.find? (fun c => c.tag == t)

/-- The dictionary `parse_feed` builds for each entry.  The source also
stores the raw entry node under the key `_raw_entry`; it is kept here as
`raw_entry`. -/
structure EntryRecord where
  id : Option String
  raw_id : Option String
  title : String
  summary : String
  published : Option String
  updated : Option String
  authors : List String
  pdf_url : Option String
  categories : List String
  primary_category : Option String
  raw_entry : Element

/-- Substring containment over character lists: `pat` occurs contiguously
in the second list. -/
def listInfixOf (pat : List Char) : List Char → Bool
  | [] => pat.isEmpty
  | c :: rest => pat.isPrefixOf (c :: rest) || listInfixOf pat rest

/-- `str.lower()` (ASCII case folding), over the character list. -/
def lowerStr (s : String) : String :=
  String.mk (s.toList.map Char.toLower)

/-- `str.strip()`: drop leading and trailing whitespace. -/
def trimStr (s : String) : String :=
  String.mk ((((s.toList.dropWhile Char.isWhitespace).reverse).dropWhile Char.isWhitespace).reverse)

/-- Worker for `str.split(sep)`: scan left to right; a separator match at
the current position closes the current field and the scan resumes after
the separator (`skip` counts separator characters still to consume);
otherwise the character joins the current field (`acc`, reversed). -/
def splitGo (sep : List Char) : List Char → Nat → List Char → List (List Char)
  | [], _, acc => [acc.reverse]
  | _ :: rest, skip + 1, acc => splitGo sep rest skip acc
  | c :: rest, 0, acc =>
      if sep.isPrefixOf (c :: rest) then
        acc.reverse :: splitGo sep rest (sep.length - 1) []
      else
        splitGo sep rest 0 (c :: acc)

/-- `s.split(sep)` for a non-empty separator: the fields between leftmost
non-overlapping occurrences of `sep`, in order.  Always non-empty. -/
def splitOnStr (sep s : String) : List String :=
  (splitGo sep.toList s.toList 0 []).map String.mk

/-- `"/abs/" in s`: substring containment, as in the Python `in` operator. -/
def hasAbsMarker (s : String) : Bool :=
  listInfixOf "/abs/".toList s.toList

/-- The id derivation: `raw_id.split("/abs/")[-1]` guarded by
`if raw_id and "/abs/" in raw_id` (truthiness: present and non-empty).
`splitOnStr` never returns `[]`, so `getLastD` is the `[-1]` index. -/
def arxivIdOf : Option String → Option String
  | some s => if s != "" && hasAbsMarker s then some ((splitOnStr "/abs/" s).getLastD "") else none
  | none => none

/-- `el.text.strip() if el is not None and el.text else ""`, with the
element lookup and the text lookup already collapsed into one option. -/
def stripOrEmpty : Option String → String
  | some t => if t == "" then "" else trimStr t
  | none => ""

/-- The author-loop body: `a.find("atom:name")`, then
`if name_el is not None and name_el.text: authors.append(name_el.text.strip())`.
Returns the name to append, or `none` when this author is skipped. -/
def authorName (a : Element) : Option String :=
  match a.find "atom:name" with
  | some nameEl =>
      match nameEl.text with
      | some t => if t == "" then none else some (trimStr t)
      | none => none
  | none => none

/-- The author loop of `parse_feed`, appending in document order. -/
def collectAuthors : List Element → List String
  | [] => []
  | a :: rest =>
      match authorName a with
      | some n => n :: collectAuthors rest
      | none => collectAuthors rest

/-- The link test of the pdf loop:
`ltype == "application/pdf" or (ltitle and ltitle.lower() == "pdf")`. -/
def isPdfLink (link : Element) : Bool :=
  link.get "type" == some "application/pdf" ||
    (match link.get "title" with
     | some t => t != "" && lowerStr t == "pdf"
     | none => false)

/-- The pdf-link loop: scan links in document order, and at the first link
passing `isPdfLink` take its `href` attribute (possibly absent) and stop. -/
def findPdfUrl : List Element → Option String
  | [] => none
  | link :: rest => if isPdfLink link then link.get "href" else findPdfUrl rest

/-- The category comprehension body: `c.get("term")` kept only when truthy
(present and non-empty). -/
def categoryTerm (c : Element) : Option String :=
  match c.get "term" with
  | some t => if t == "" then none else some t
  | none => none

/-- `[c.get("term") for c in entry.findall("atom:category", ns) if c.get("term")]`. -/
def collectCategories : List Element → List String
  | [] => []
  | c :: rest =>
      match categoryTerm c with
      | some t => t :: collectCategories rest
      | none => collectCategories rest

/-- The body of the entry loop of `ArxivClient.parse_feed`: one entry
element to one record dictionary. -/
def parseEntry (entry : Element) : EntryRecord :=
  { id := arxivIdOf ((entry.find "atom:id").bind Element.text)
  , raw_id := (entry.find "atom:id").bind Element.text
  , title := stripOrEmpty ((entry.find "atom:title").bind Element.text)
  , summary := stripOrEmpty ((entry.find "atom:summary").bind Element.text)
  , published := (entry.find "atom:published").bind Element.text
  , updated := (entry.find "atom:updated").bind Element.text
  , authors := collectAuthors (entry.findall "atom:author")
  , pdf_url := findPdfUrl (entry.findall "atom:link")
  , categories := collectCategories (entry.findall "atom:category")
  , primary_category := (entry.find "arxiv:primary_category").bind (fun pc => pc.get "term")
  , raw_entry := entry }

/-- The error `parse_feed` surfaces when `ET.fromstring` cannot parse the
input (the `MalformedDocument` error of the design). -/
inductive FeedError : Type where
  | malformedDocument
deriving DecidableEq

/-- `ArxivClient.parse_feed`, with the external XML tokenizer
`ET.fromstring` abstracted as `fromstring`: a parse failure aborts the whole
call, otherwise every `atom:entry` child of the root is converted in
document order. -/
def parse_feed (fromstring : String → Option Element) (atom_text : String) :
    Except FeedError (List EntryRecord) :=
  match fromstring atom_text with
  | none => Except.error FeedError.malformedDocument
  | some root => Except.ok ((root.findall "atom:entry").map parseEntry)

/-- Errors surfaced by `search`/`get`: a transport failure (network error or
non-success HTTP status, carried as a message) or a malformed response
body. -/
inductive ApiError : Type where
  | transport : String → ApiError
  | malformedDocument
deriving DecidableEq

/-- The parameter dictionary `search` builds for the HTTP GET. -/
structure QueryParams where
  search_query : String
  start : Nat
  max_results : Nat
  sortBy : String
  sortOrder : String
deriving DecidableEq

/-- The client: the injected HTTP session (`session.get` composed with
`raise_for_status` and `.text`, collapsed into one call returning either an
error or the response body) and the XML tokenizer. -/
structure ArxivClient where
  transport : QueryParams → Except String String
  fromstring : String → Option Element

/-- `ArxivClient.search`: build the parameter set, perform the GET, and
parse the response body.  Transport and parser failures propagate
unchanged. -/
def ArxivClient.search (c : ArxivClient) (query : String) (start : Nat)
    (max_results : Nat) (sort_by : String) (sort_order : String) :
    Except ApiError (List EntryRecord) :=
  match c.transport
      { search_query := query
      , start := start
      , max_results := max_results
      , sortBy := sort_by
      , sortOrder := sort_order } with
  | Except.error e => Except.error (ApiError.transport e)
  | Except.ok body =>
      match parse_feed c.fromstring body with
      | Except.error _ => Except.error ApiError.malformedDocument
      | Except.ok recs => Except.ok recs

/-- `ArxivClient.get`: `search(f"id:{arxiv_id}", max_results=1)` with the
remaining parameters at their defaults, then `results[0] if results else
None`. -/
def ArxivClient.get (c : ArxivClient) (arxiv_id : String) :
    Except ApiError (Option EntryRecord) :=
  match c.search ("id:" ++ arxiv_id) 0 1 "relevance" "descending" with
  | Except.error e => Except.error e
  | Except.ok results => Except.ok results.head?

/-! Definitions taken from the wording of the specification, kept separate
from the source translation above so that the two can be compared. -/

/-- The suffix of the list after the last (rightmost) occurrence of `pat`,
or `none` when `pat` does not occur.  Written from the words of the
specification: the substring following the last occurrence of the marker. -/
def lastOccSuffix (pat : List Char) : List Char → Option (List Char)
  | [] => if pat.isEmpty then some [] else none
  | c :: rest =>
      match lastOccSuffix pat rest with
      | some t => some t
      | none =>
          if pat.isPrefixOf (c :: rest) then some (List.drop pat.length (c :: rest)) else none

/-- The substring of `s` following the last occurrence of the abstract-page
marker `"/abs/"`, or `none` when the marker does not occur in `s`. -/
def afterLastMarker (s : String) : Option String :=
  (lastOccSuffix "/abs/".toList s.toList).map (fun l => String.mk l)

/-- The author count the specification speaks of: the first `atom:name`
child exists and its text is present and non-empty. -/
def hasNonemptyNameText (a : Element) : Bool :=
  match a.find "atom:name" with
  | some nameEl =>
      match nameEl.text with
      | some t => t != ""
      | none => false
  | none => false

/-- A link matching by declared media type. -/
def isTypePdf (link : Element) : Bool :=
  link.get "type" == some "application/pdf"

/-- A link matching by title, case-insensitively equal to `"pdf"`. -/
def isTitlePdf (link : Element) : Bool :=
  match link.get "title" with
  | some t => lowerStr t == "pdf"
  | none => false

/-! Concrete documents and clients used to exercise the theorems. -/

/-- An entry whose identifier text contains two overlapping occurrences of
the abstract-page marker. -/
def entryC3 : Element :=
  Element.mk "atom:entry" [] none
    [Element.mk "atom:id" [] (some "http://example.org/abs/abs/2101.00001") []]

/-- A link matching only by its title attribute, case-insensitively. -/
def linkTitlePdf : Element :=
  Element.mk "atom:link" [("title", "PDF"), ("href", "http://example.org/alt.pdf")] none []

/-- A link matching by its declared media type. -/
def linkTypePdf : Element :=
  Element.mk "atom:link" [("type", "application/pdf"), ("href", "http://example.org/main.pdf")] none []

/-- An entry whose first link matches by title and whose second link
matches by media type. -/
def entryC4 : Element :=
  Element.mk "atom:entry" [] none [linkTitlePdf, linkTypePdf]

/-- An entry with a padded title and no summary element. -/
def entryC5 : Element :=
  Element.mk "atom:entry" [] none
    [Element.mk "atom:title" [] (some "  Quantum Foo  ") []]

/-- An entry with one usable author and three degenerate ones: empty name
text, missing name text, missing name child. -/
def entryC6 : Element :=
  Element.mk "atom:entry" [] none
    [ Element.mk "atom:author" [] none [Element.mk "atom:name" [] (some "  Jane Doe ") []]
    , Element.mk "atom:author" [] none [Element.mk "atom:name" [] (some "") []]
    , Element.mk "atom:author" [] none [Element.mk "atom:name" [] none []]
    , Element.mk "atom:author" [] none [] ]

/-- A category element whose term attribute is present but empty. -/
def catEmptyTerm : Element :=
  Element.mk "atom:category" [("term", "")] none []

/-- A category element with a non-empty term attribute. -/
def catCsAI : Element :=
  Element.mk "atom:category" [("term", "cs.AI")] none []

/-- An entry whose two category children both carry a term attribute, the
first one empty. -/
def entryC7 : Element :=
  Element.mk "atom:entry" [] none [catEmptyTerm, catCsAI]

/-- A matching pdf link with no href attribute. -/
def linkPdfNoHref : Element :=
  Element.mk "atom:link" [("title", "pdf")] none []

/-- An entry whose first matching link has no href while a later matching
link does. -/
def entryC9 : Element :=
  Element.mk "atom:entry" [] none [linkPdfNoHref, linkTypePdf]

/-- A name element whose text is a single space. -/
def nameWs : Element :=
  Element.mk "atom:name" [] (some " ") []

/-- An author whose name text is whitespace only. -/
def authorWs : Element :=
  Element.mk "atom:author" [] none [nameWs]

/-- An entry with one whitespace-named author. -/
def entryC10 : Element :=
  Element.mk "atom:entry" [] none [authorWs]

/-- A feed root with two entry children separated by a non-entry child. -/
def entryC1a : Element :=
  Element.mk "atom:entry" [] none
    [Element.mk "atom:id" [] (some "http://arxiv.org/abs/2101.00001v1") []]

/-- An entry with no children at all. -/
def entryC1b : Element :=
  Element.mk "atom:entry" [] none []

/-- A feed root holding `entryC1a`, a non-entry child, and `entryC1b`. -/
def rootC1 : Element :=
  Element.mk "atom:feed" [] none
    [entryC1a, Element.mk "atom:updated" [] (some "2021-01-01T00:00:00Z") [], entryC1b]

/-- A feed root with no entry children. -/
def feedEmpty : Element :=
  Element.mk "atom:feed" [] none []

/-- A client whose transport succeeds with a body parsing to an empty
feed. -/
def clientEmpty : ArxivClient :=
  { transport := fun _ => Except.ok ""
  , fromstring := fun _ => some feedEmpty }

/-! Helper lemmas shared by the claim theorems. -/

theorem stripOrEmpty_eq (x : Option String) :
    stripOrEmpty x = (match x with | some t => trimStr t | none => "") := by
  cases x with
  | none => rfl
  | some t =>
      by_cases h0 : t = ""
      · subst h0
        show stripOrEmpty (some "") = trimStr ""
        rw [show trimStr "" = "" from by decide]
        rfl
      · simp [stripOrEmpty, h0]

theorem collectAuthors_eq_filterMap (l : List Element) :
    collectAuthors l = l.filterMap authorName := by
  induction l with
  | nil => rfl
  | cons a rest ih =>
      simp only [collectAuthors, List.filterMap_cons]
      cases authorName a <;> simp [ih]

theorem collectCategories_eq_filterMap (l : List Element) :
    collectCategories l = l.filterMap categoryTerm := by
  induction l with
  | nil => rfl
  | cons c rest ih =>
      simp only [collectCategories, List.filterMap_cons]
      cases categoryTerm c <;> simp [ih]

theorem findPdfUrl_eq_find (l : List Element) :
    findPdfUrl l = (l.find? isPdfLink).bind (fun x => x.get "href") := by
  induction l with
  | nil => rfl
  | cons a rest ih =>
      cases h : isPdfLink a with
      | true => simp [findPdfUrl, List.find?, h]
      | false => simp [findPdfUrl, List.find?, h, ih]

theorem findPdfUrl_append (pre rest : List Element)
    (hpre : ∀ x ∈ pre, isPdfLink x = false) :
    findPdfUrl (pre ++ rest) = findPdfUrl rest := by
  induction pre with
  | nil => rfl
  | cons a pre ih =>
      have ha : isPdfLink a = false := hpre a (List.mem_cons_self a pre)
      simpa [findPdfUrl, ha] using ih (fun x hx => hpre x (List.mem_cons_of_mem a hx))

theorem length_filterMap_eq_length_filter {α β : Type} (f : α → Option β) (p : α → Bool)
    (h : ∀ a, (f a).isSome = p a) (l : List α) :
    (l.filterMap f).length = (l.filter p).length := by
  induction l with
  | nil => rfl
  | cons a rest ih =>
      have hpa := h a
      cases hfa : f a with
      | some b =>
          rw [hfa] at hpa
          simp only [List.filterMap_cons, List.filter_cons, hfa, ← hpa]
          simp [ih]
      | none =>
          rw [hfa] at hpa
          simp only [List.filterMap_cons, List.filter_cons, hfa, ← hpa]
          simp [ih]

theorem authorName_isSome (a : Element) :
    (authorName a).isSome = hasNonemptyNameText a := by
  cases hf : a.find "atom:name" with
  | none => simp [authorName, hasNonemptyNameText, hf]
  | some nameEl =>
      cases ht : nameEl.text with
      | none => simp [authorName, hasNonemptyNameText, hf, ht]
      | some t =>
          by_cases h0 : t = ""
          · simp [authorName, hasNonemptyNameText, hf, ht, h0]
          · simp [authorName, hasNonemptyNameText, hf, ht, h0]

theorem isTitlePdf_isPdfLink (l : Element) (h : isTitlePdf l = true) :
    isPdfLink l = true := by
  unfold isTitlePdf at h
  cases hg : l.get "title" with
  | none => rw [hg] at h; simp at h
  | some t =>
      rw [hg] at h
      simp only [beq_iff_eq] at h
      have hne : (t != "") = true := by
        rcases eq_or_ne t "" with rfl | hne
        · rw [show lowerStr "" = "" from by decide] at h
          exact absurd h (by decide)
        · simpa using hne
      unfold isPdfLink
      rw [hg]
      simp [h, hne]

theorem isTypePdf_isPdfLink (l : Element) (h : isTypePdf l = true) :
    isPdfLink l = true := by
  unfold isTypePdf at h
  unfold isPdfLink
  simp [h]

/-! The claim theorems. -/

/-- C1: for every input the tokenizer parses to a root element,
`parse_feed` succeeds and returns one record per `atom:entry` child of the
root, the records being exactly the entry elements parsed in document
order; with zero entry children the result is the empty list, without
error. -/
theorem c1_parse_feed_count_order (fromstring : String → Option Element)
    (atom_text : String) (root : Element) (h : fromstring atom_text = some root) :
    parse_feed fromstring atom_text =
      Except.ok ((root.findall "atom:entry").map parseEntry) ∧
    (∀ recs, parse_feed fromstring atom_text = Except.ok recs →
        recs.length = (root.findall "atom:entry").length) ∧
    (root.findall "atom:entry" = [] →
        parse_feed fromstring atom_text = Except.ok []) := by
  have h1 : parse_feed fromstring atom_text =
      Except.ok ((root.findall "atom:entry").map parseEntry) := by
    unfold parse_feed
    rw [h]
  refine ⟨h1, ?_, ?_⟩
  · intro recs hr
    rw [h1] at hr
    injection hr with hr
    rw [← hr, List.length_map]
  · intro hz
    rw [h1, hz]
    rfl

/-- C1 witness: a concrete tokenizer returning `rootC1` (two entry
children) gives two records, and one returning `feedEmpty` gives the empty
list. -/
theorem c1_witness :
    (∀ recs, parse_feed (fun _ => some rootC1) "body" = Except.ok recs →
        recs.length = (rootC1.findall "atom:entry").length) ∧
    parse_feed (fun _ => some feedEmpty) "body" = Except.ok [] := by
  refine ⟨(c1_parse_feed_count_order (fun _ => some rootC1) "body" rootC1 rfl).2.1, ?_⟩
  exact (c1_parse_feed_count_order (fun _ => some feedEmpty) "body" feedEmpty rfl).2.2 rfl

/-- C2: when the tokenizer cannot parse the input, `parse_feed` fails with
the malformed-document error and returns no record list at all. -/
theorem c2_parse_feed_malformed (fromstring : String → Option Element)
    (atom_text : String) (h : fromstring atom_text = none) :
    parse_feed fromstring atom_text = Except.error FeedError.malformedDocument ∧
    ∀ recs, parse_feed fromstring atom_text ≠ Except.ok recs := by
  have h1 : parse_feed fromstring atom_text =
      Except.error FeedError.malformedDocument := by
    unfold parse_feed
    rw [h]
  refine ⟨h1, ?_⟩
  intro recs hr
  rw [h1] at hr
  exact Except.noConfusion hr

/-- C2 witness: a tokenizer rejecting every input makes `parse_feed` fail
on a concrete non-XML string. -/
theorem c2_witness :
    parse_feed (fun _ => none) "this is not xml" =
      Except.error FeedError.malformedDocument ∧
    ∀ recs, parse_feed (fun _ => none) "this is not xml" ≠ Except.ok recs :=
  c2_parse_feed_malformed (fun _ => none) "this is not xml" rfl

/-- C3 counterexample: with identifier text
`http://example.org/abs/abs/2101.00001` the marker occurs twice, the
occurrences overlapping; the substring following the last occurrence is
`2101.00001`, but the code takes the last field of the leftmost
non-overlapping split and yields `abs/2101.00001`. -/
theorem c3_counterexample :
    (parseEntry entryC3).raw_id = some "http://example.org/abs/abs/2101.00001" ∧
    afterLastMarker "http://example.org/abs/abs/2101.00001" = some "2101.00001" ∧
    (parseEntry entryC3).id = some "abs/2101.00001" ∧
    (parseEntry entryC3).id ≠ afterLastMarker "http://example.org/abs/abs/2101.00001" := by
  refine ⟨by decide, by decide, by decide, by decide⟩

/-- C3 amended: when the identifier text is present and contains the
marker, `id` is the last field of splitting the text on the marker (the
substring after the last occurrence whenever occurrences do not overlap);
when the identifier element or its text is missing, or the marker does not
occur, `id` is absent. -/
theorem c3_amended_id_spec (e : Element) :
    ((parseEntry e).raw_id = (e.find "atom:id").bind Element.text) ∧
    (∀ s, (parseEntry e).raw_id = some s → hasAbsMarker s = true →
        (parseEntry e).id = some ((splitOnStr "/abs/" s).getLastD "")) ∧
    (∀ s, (parseEntry e).raw_id = some s → hasAbsMarker s = false →
        (parseEntry e).id = none) ∧
    ((parseEntry e).raw_id = none → (parseEntry e).id = none) := by
  have hid : (parseEntry e).id = arxivIdOf ((parseEntry e).raw_id) := rfl
  refine ⟨rfl, ?_, ?_, ?_⟩
  · intro s hs hm
    rw [hid, hs]
    have hne : s ≠ "" := by
      intro h0
      rw [h0] at hm
      exact absurd hm (by decide)
    simp [arxivIdOf, hm, hne]
  · intro s hs hm
    rw [hid, hs]
    simp [arxivIdOf, hm]
  · intro hs
    rw [hid, hs]
    rfl

/-- C3 witness: the amended rule evaluated on `entryC3`. -/
theorem c3_witness :
    (parseEntry entryC3).id = some "abs/2101.00001" := by
  have h := (c3_amended_id_spec entryC3).2.1
      "http://example.org/abs/abs/2101.00001" (by decide) (by decide)
  rw [h]
  decide

/-- C4: `pdf_url` is the href of the first link, in document order, whose
type attribute is `application/pdf` or whose title is `pdf`
case-insensitively; when an earlier link matches by title and a later one
by media type, the earlier href wins; when no link matches, `pdf_url` is
absent. -/
theorem c4_pdf_url_selection (e : Element) :
    ((parseEntry e).pdf_url =
      ((e.findall "atom:link").find? isPdfLink).bind (fun l => l.get "href")) ∧
    (∀ pre l1 mid l2 post,
        e.findall "atom:link" = pre ++ l1 :: (mid ++ l2 :: post) →
        (∀ x ∈ pre, isPdfLink x = false) →
        isTitlePdf l1 = true → isTypePdf l2 = true →
        (parseEntry e).pdf_url = l1.get "href") ∧
    ((∀ x ∈ e.findall "atom:link", isPdfLink x = false) →
        (parseEntry e).pdf_url = none) := by
  have h0 : (parseEntry e).pdf_url = findPdfUrl (e.findall "atom:link") := rfl
  refine ⟨?_, ?_, ?_⟩
  · rw [h0, findPdfUrl_eq_find]
  · intro pre l1 mid l2 post hsplit hpre h1 _
    rw [h0, hsplit, findPdfUrl_append pre _ hpre]
    simp [findPdfUrl, isTitlePdf_isPdfLink l1 h1]
  · intro hall
    rw [h0]
    have h := findPdfUrl_append (e.findall "atom:link") [] hall
    simpa using h

/-- C4 witness: on `entryC4` the first link (title `PDF`) beats the second
(media type), so its href is chosen. -/
theorem c4_witness :
    (parseEntry entryC4).pdf_url = some "http://example.org/alt.pdf" := by
  have h := (c4_pdf_url_selection entryC4).2.1 [] linkTitlePdf [] linkTypePdf []
      rfl (by simp) (by decide) (by decide)
  rw [h]
  decide

/-- C5: `title` and `summary` are plain strings of the record, equal to the
element text trimmed of surrounding whitespace, and empty when the element
or its text is missing; `authors` and `categories` are plain lists of the
record (never absent by construction of `EntryRecord`). -/
theorem c5_title_summary_total (e : Element) :
    ((parseEntry e).title =
      (match (e.find "atom:title").bind Element.text with
        | some t => trimStr t
        | none => "")) ∧
    ((parseEntry e).summary =
      (match (e.find "atom:summary").bind Element.text with
        | some t => trimStr t
        | none => "")) ∧
    (parseEntry e).authors = collectAuthors (e.findall "atom:author") ∧
    (parseEntry e).categories = collectCategories (e.findall "atom:category") := by
  refine ⟨?_, ?_, rfl, rfl⟩
  · rw [show (parseEntry e).title =
        stripOrEmpty ((e.find "atom:title").bind Element.text) from rfl]
    exact stripOrEmpty_eq _
  · rw [show (parseEntry e).summary =
        stripOrEmpty ((e.find "atom:summary").bind Element.text) from rfl]
    exact stripOrEmpty_eq _

/-- C5 witness: on `entryC5` the padded title trims to `Quantum Foo` and
the missing summary defaults to the empty string. -/
theorem c5_witness :
    (parseEntry entryC5).title = "Quantum Foo" ∧
    (parseEntry entryC5).summary = "" := by
  have h := c5_title_summary_total entryC5
  refine ⟨?_, ?_⟩
  · rw [h.1]
    decide
  · rw [h.2.1]
    decide

/-- C6: `authors` collects, in document order, the trimmed name text of
exactly the author children whose first name child has present, non-empty
text; its length is the number of such author children, and every collected
name is the trim of such a text. -/
theorem c6_authors_spec (e : Element) :
    (parseEntry e).authors = (e.findall "atom:author").filterMap authorName ∧
    (parseEntry e).authors.length =
      ((e.findall "atom:author").filter hasNonemptyNameText).length ∧
    (∀ n, n ∈ (parseEntry e).authors →
        ∃ a, a ∈ e.findall "atom:author" ∧
          ∃ t, (a.find "atom:name").bind Element.text = some t ∧
            t ≠ "" ∧ n = trimStr t) := by
  have h0 : (parseEntry e).authors = (e.findall "atom:author").filterMap authorName := by
    rw [show (parseEntry e).authors = collectAuthors (e.findall "atom:author") from rfl,
      collectAuthors_eq_filterMap]
  refine ⟨h0, ?_, ?_⟩
  · rw [h0]
    exact length_filterMap_eq_length_filter authorName hasNonemptyNameText authorName_isSome _
  · intro n hn
    rw [h0] at hn
    rcases List.mem_filterMap.mp hn with ⟨a, ha, hfa⟩
    refine ⟨a, ha, ?_⟩
    cases hf : a.find "atom:name" with
    | none => simp [authorName, hf] at hfa
    | some nameEl =>
        cases ht : nameEl.text with
        | none => simp [authorName, hf, ht] at hfa
        | some t =>
            by_cases h1 : t = ""
            · simp [authorName, hf, ht, h1] at hfa
            · refine ⟨t, by simp [hf, ht], h1, ?_⟩
              simp [authorName, hf, ht, h1] at hfa
              exact hfa.symm

/-- C6 witness: on `entryC6` exactly one of the four author children has a
non-empty name text; the record has that single trimmed name. -/
theorem c6_witness :
    (parseEntry entryC6).authors.length =
      ((entryC6.findall "atom:author").filter hasNonemptyNameText).length ∧
    (∃ a, a ∈ entryC6.findall "atom:author" ∧
        ∃ t, (a.find "atom:name").bind Element.text = some t ∧
          t ≠ "" ∧ "Jane Doe" = trimStr t) ∧
    (parseEntry entryC6).authors = ["Jane Doe"] :=
  ⟨(c6_authors_spec entryC6).2.1,
   (c6_authors_spec entryC6).2.2 "Jane Doe" (by decide),
   by decide⟩

/-- C7 counterexample: both category children of `entryC7` carry a term
attribute, yet the record holds only one term — the category whose term
attribute is the empty string is skipped, so the claim that the term of
every category with a term attribute is collected fails. -/
theorem c7_counterexample :
    (∀ c, c ∈ entryC7.findall "atom:category" → (c.get "term").isSome = true) ∧
    (entryC7.findall "atom:category").length = 2 ∧
    (parseEntry entryC7).categories = ["cs.AI"] ∧
    (∃ c, c ∈ entryC7.findall "atom:category" ∧
        ∃ t, c.get "term" = some t ∧ t ∉ (parseEntry entryC7).categories) := by
  have hfind : entryC7.findall "atom:category" = [catEmptyTerm, catCsAI] := rfl
  refine ⟨?_, by decide, by decide, ?_⟩
  · rw [hfind]
    decide
  · refine ⟨catEmptyTerm, ?_, "", by decide, by decide⟩
    rw [hfind]
    exact List.mem_cons_self _ _

/-- C7 amended: `categories` collects, in document order, the term
attribute of every category child whose term attribute is present AND
non-empty; categories with a missing or empty term attribute are
skipped. -/
theorem c7_amended_categories_spec (e : Element) :
    (parseEntry e).categories = (e.findall "atom:category").filterMap categoryTerm ∧
    (∀ c, c ∈ e.findall "atom:category" → ∀ t, c.get "term" = some t → t ≠ "" →
        t ∈ (parseEntry e).categories) ∧
    (∀ t, t ∈ (parseEntry e).categories →
        ∃ c, c ∈ e.findall "atom:category" ∧ c.get "term" = some t ∧ t ≠ "") := by
  have h0 : (parseEntry e).categories =
      (e.findall "atom:category").filterMap categoryTerm := by
    rw [show (parseEntry e).categories = collectCategories (e.findall "atom:category") from rfl,
      collectCategories_eq_filterMap]
  refine ⟨h0, ?_, ?_⟩
  · intro c hc t hget hne
    rw [h0]
    refine List.mem_filterMap.mpr ⟨c, hc, ?_⟩
    simp [categoryTerm, hget, hne]
  · intro t ht
    rw [h0] at ht
    rcases List.mem_filterMap.mp ht with ⟨c, hc, hct⟩
    refine ⟨c, hc, ?_⟩
    cases hget : c.get "term" with
    | none => simp [categoryTerm, hget] at hct
    | some u =>
        by_cases h1 : u = ""
        · simp [categoryTerm, hget, h1] at hct
        · simp [categoryTerm, hget, h1] at hct
          subst hct
          exact ⟨rfl, h1⟩

/-- C7 witness: the amended rule on `entryC7`: the non-empty term `cs.AI`
is collected. -/
theorem c7_witness :
    "cs.AI" ∈ (parseEntry entryC7).categories := by
  have hfind : entryC7.findall "atom:category" = [catEmptyTerm, catCsAI] := rfl
  refine (c7_amended_categories_spec entryC7).2.1 catCsAI ?_ "cs.AI" (by decide) (by decide)
  rw [hfind]
  exact List.mem_cons_of_mem _ (List.mem_cons_self _ _)

/-- C8: `get` equals `search` on the query `id:` ++ id with one result
requested and the remaining parameters at their defaults, followed by
taking the head of the result list; when that search succeeds, `get` is
absent exactly when the result list is empty. -/
theorem c8_get_spec (c : ArxivClient) (arxiv_id : String) :
    (c.get arxiv_id =
      (c.search ("id:" ++ arxiv_id) 0 1 "relevance" "descending").map List.head?) ∧
    (∀ recs, c.search ("id:" ++ arxiv_id) 0 1 "relevance" "descending" = Except.ok recs →
        (c.get arxiv_id = Except.ok none ↔ recs = [])) := by
  refine ⟨?_, ?_⟩
  · unfold ArxivClient.get
    cases hs : c.search ("id:" ++ arxiv_id) 0 1 "relevance" "descending" with
    | error e => simp [Except.map]
    | ok rs => simp [Except.map]
  · intro recs hs
    have h1 : c.get arxiv_id = Except.ok recs.head? := by
      unfold ArxivClient.get
      rw [hs]
    constructor
    · intro hg
      rw [h1] at hg
      injection hg with hg
      cases recs with
      | nil => rfl
      | cons a l => exact Option.noConfusion hg
    · intro hz
      subst hz
      rw [h1]
      rfl

/-- C8 witness: against `clientEmpty`, whose transport body parses to a
feed with no entries, `get` returns absent. -/
theorem c8_witness :
    clientEmpty.get "2101.00001" = Except.ok none :=
  ((c8_get_spec clientEmpty "2101.00001").2 [] rfl).mpr rfl

/-- C9: when the first link passing the pdf test has no href attribute, the
scan stops there and `pdf_url` is absent, regardless of any later matching
link. -/
theorem c9_pdf_scan_stops (e : Element) (pre post : List Element) (l : Element)
    (hsplit : e.findall "atom:link" = pre ++ l :: post)
    (hpre : ∀ x ∈ pre, isPdfLink x = false)
    (hl : isPdfLink l = true)
    (hhref : l.get "href" = none) :
    (parseEntry e).pdf_url = none := by
  have h0 : (parseEntry e).pdf_url = findPdfUrl (e.findall "atom:link") := rfl
  rw [h0, hsplit, findPdfUrl_append pre _ hpre]
  simp [findPdfUrl, hl, hhref]

/-- C9 witness: in `entryC9` the first link matches by title but carries no
href while the second link matches by media type with an href; `pdf_url` is
still absent. -/
theorem c9_witness :
    (parseEntry entryC9).pdf_url = none ∧
    (∃ x, x ∈ entryC9.findall "atom:link" ∧ isPdfLink x = true ∧
        (x.get "href").isSome = true) := by
  have hfind : entryC9.findall "atom:link" = [linkPdfNoHref, linkTypePdf] := rfl
  refine ⟨c9_pdf_scan_stops entryC9 [] [linkTypePdf] linkPdfNoHref rfl (by simp)
      (by decide) (by decide), ?_⟩
  refine ⟨linkTypePdf, ?_, by decide, by decide⟩
  rw [hfind]
  exact List.mem_cons_of_mem _ (List.mem_cons_self _ _)

/-- C10: an author child whose name text is present, non-empty, and made of
whitespace only (it trims to the empty string) is not skipped: the empty
string is included in the authors list. -/
theorem c10_whitespace_author_kept (e a nameEl : Element) (t : String)
    (ha : a ∈ e.findall "atom:author")
    (hf : a.find "atom:name" = some nameEl)
    (ht : nameEl.text = some t)
    (hne : t ≠ "")
    (htrim : trimStr t = "") :
    "" ∈ (parseEntry e).authors := by
  have h0 : (parseEntry e).authors = (e.findall "atom:author").filterMap authorName := by
    rw [show (parseEntry e).authors = collectAuthors (e.findall "atom:author") from rfl,
      collectAuthors_eq_filterMap]
  rw [h0]
  refine List.mem_filterMap.mpr ⟨a, ha, ?_⟩
  simp [authorName, hf, ht, hne, htrim]

/-- C10 witness: `entryC10` has one author whose name text is a single
space; the empty string appears among its authors. -/
theorem c10_witness :
    "" ∈ (parseEntry entryC10).authors := by
  have hfind : entryC10.findall "atom:author" = [authorWs] := rfl
  refine c10_whitespace_author_kept entryC10 authorWs nameWs " " ?_ rfl rfl
      (by decide) (by decide)
  rw [hfind]
  exact List.mem_cons_self _ _

end ArxivApi
